import Mathlib

/-!
Shallow embedding of the `dotlite` read-only sqlite3 file reader, together
with theorems settling the specification claims about it.

The embedding mirrors the Go source:
  * bytes are modelled as `Nat` values reduced modulo 256 at every read,
  * Go machine integers (`int8`/`int16`/`int32`/`int64`, `uint64`) are
    modelled as `Nat`/`Int` with explicit reduction modulo `2 ^ w` and
    two's-complement reinterpretation where the source converts,
  * fallible operations return `Except Err α`,
  * `io.ReadSeeker`-style cursors become a pure `Reader` value that is
    threaded through explicitly,
  * Go runtime panics (out-of-range slice index, unknown node kind,
    negative `make` length) become dedicated `Err` constructors, so that a
    panic is observable and distinguishable from an ordinary error return.
-/

namespace Dotlite

/-- Error values produced by the embedded reader.  Each constructor stands
for one concrete `error` produced (or panic raised) by the Go source; the
constructors carry the same data the Go error messages interpolate. -/
inductive Err where
  /-- `io.EOF`, yielded by an exhausted byte source. -/
  | eof : Err
  /-- `io.ErrUnexpectedEOF` (a short read). -/
  | unexpectedEof : Err
  /-- `bytes.Reader.Seek` / `Page.Seek` "negative position". -/
  | seekNegative : Err
  /-- `Pager.ReadPage`: "page index out of range (i > pages)". -/
  | pageOutOfRange (i pages : Int) : Err
  /-- `LoadCell`: "error decoding size: page=.. cell=..". -/
  | errDecodingSize (page : Int) (cell : Nat) : Err
  /-- `LoadCell`: "error decoding rowid: page=.. cell=..". -/
  | errDecodingRowid (page : Int) (cell : Nat) : Err
  /-- `LoadCell`: "read got payload bytes instead of expected". -/
  | payloadSizeMismatch (got expected : Int) : Err
  /-- Go runtime panic from `panic(fmt.Errorf("unknow node type"))`. -/
  | panicUnknownNodeKind (k : Nat) : Err
  /-- Go runtime panic from `make([]int16, n)` with negative `n`. -/
  | panicNegativeMake : Err
  /-- Go runtime panic from an out-of-range slice index. -/
  | panicIndexOutOfRange : Err
  /-- Go runtime panic from slicing with a negative bound. -/
  | panicSliceBounds : Err
  /-- `Record.ValueAt`: "column index c out of range". -/
  | columnOutOfRange (c : Int) : Err
  /-- `Record.ValueAt`: "failed to decode 24-bit integer value". -/
  | failedDecode24 : Err
  /-- `Record.ValueAt`: "failed to decode 48-bit integer value". -/
  | failedDecode48 : Err
  /-- `Record.ValueAt`: "UTF-16 is not supported". -/
  | utf16Unsupported : Err
  /-- `Record.ValueAt`: "unknown value type t". -/
  | unknownValueType (t : Int) : Err
  /-- Recursion budget of the embedding exhausted: marks a computation of
  the Go source that has not terminated within the given fuel. -/
  | outOfFuel : Err
  /-- An error supplied by a user visitor callback, tagged by a number so
  that verbatim propagation is observable. -/
  | userError (n : Nat) : Err
  deriving DecidableEq, Repr

/-- Two's-complement reinterpretation of the low 64 bits of a `Nat`
(Go `int64(v)` for `v : uint64`). -/
def toInt64 (v : Nat) : Int :=
  let m : Nat := v % 2 ^ 64
  if m < 2 ^ 63 then (m : Int) else (m : Int) - 2 ^ 64

/-- Two's-complement reinterpretation of the low 32 bits of a `Nat`. -/
def toInt32 (v : Nat) : Int :=
  let m : Nat := v % 2 ^ 32
  if m < 2 ^ 31 then (m : Int) else (m : Int) - 2 ^ 32

/-- Two's-complement reinterpretation of the low 16 bits of a `Nat`. -/
def toInt16 (v : Nat) : Int :=
  let m : Nat := v % 2 ^ 16
  if m < 2 ^ 15 then (m : Int) else (m : Int) - 2 ^ 16

/-- Two's-complement reinterpretation of the low 8 bits of a `Nat`. -/
def toInt8 (v : Nat) : Int :=
  let m : Nat := v % 2 ^ 8
  if m < 2 ^ 7 then (m : Int) else (m : Int) - 2 ^ 8

/-- Two's-complement truncation of an `Int` to 32 bits (Go `int32(v)` for
`v : int64`). -/
def wrapInt32 (v : Int) : Int :=
  let m := v % 2 ^ 32
  if m < 2 ^ 31 then m else m - 2 ^ 32

/-- Big-endian value of a byte list (each entry taken modulo 256). -/
def beNat (l : List Nat) : Nat :=
  l.foldl (fun a b => a * 256 + b % 256) 0

/-- Sequential cursor over an immutable byte buffer.  This models the
shared implementation of `Page` and `Cell` in the source (both are
`bytes.Reader`-style readers: a slice `s` and a reading index `i`). -/
structure Reader where
  s : List Nat
  i : Nat
  deriving DecidableEq, Repr

namespace Reader

/-- `Len()`: number of unread bytes. -/
def len (r : Reader) : Nat := r.s.length - r.i

/-- `ReadByte()`: one byte (reduced mod 256), or `io.EOF` when the cursor
is at or past the end. -/
def readByte (r : Reader) : Except Err (Nat × Reader) :=
  if r.s.length ≤ r.i then .error .eof
  else .ok (r.s.getD r.i 0 % 256, ⟨r.s, r.i + 1⟩)

/-- `Read(buf)` with a buffer of length `n`: copies `min n len` bytes and
advances; yields `io.EOF` only when the cursor is already at the end. -/
def read (r : Reader) (n : Nat) : Except Err (List Nat × Reader) :=
  if r.s.length ≤ r.i then .error .eof
  else
    let m := min n (r.s.length - r.i)
    .ok (((r.s.drop r.i).take m).map (· % 256), ⟨r.s, r.i + m⟩)

/-- `io.ReadFull` over the reader (also the behaviour of `binary.Read` for
a fixed-size value of `n` bytes): exactly `n` bytes or an error
(`io.EOF` when nothing is available, `io.ErrUnexpectedEOF` on a short
read). -/
def readExact (r : Reader) (n : Nat) : Except Err (List Nat × Reader) :=
  if 0 < n ∧ r.s.length ≤ r.i then .error .eof
  else if r.s.length - r.i < n then .error .unexpectedEof
  else .ok (((r.s.drop r.i).take n).map (· % 256), ⟨r.s, r.i + n⟩)

/-- `Seek(offset, io.SeekStart)`: absolute positioning; errors on a
negative target position, otherwise moves the cursor (possibly past the
end, as in the source). -/
def seekStart (r : Reader) (offset : Int) : Except Err Reader :=
  if offset < 0 then .error .seekNegative
  else .ok ⟨r.s, offset.toNat⟩

end Reader

/-- Loop of `Varint` (utils.go): the fuel counts the remaining iterations
of `for i := 0; i < 8; i++`; when it reaches zero the ninth byte is read
and contributes all eight of its bits after a left shift by eight.  The
accumulator `val` is the Go `uint64` local, so every shift is reduced
modulo `2 ^ 64`. -/
def varintLoop : Nat → Nat → Reader → Except Err (Int × Reader)
  | 0, val, r =>
    match r.readByte with
    | .error e => .error e
    | .ok (b, r) => .ok (toInt64 ((val <<< 8) % 2 ^ 64 ||| b), r)
  | k + 1, val, r =>
    match r.readByte with
    | .error e => .error e
    | .ok (b, r) =>
      let val := (val <<< 7) % 2 ^ 64 ||| (b &&& 0x7f)
      if b < 0x80 then .ok (toInt64 val, r) else varintLoop k val r

/-- `Varint` (utils.go): sqlite's 1-to-9 byte big-endian variable-length
integer decoder. -/
def Varint (r : Reader) : Except Err (Int × Reader) :=
  varintLoop 8 0 r

/-- Modelled from the spec's words (§4.1 of the spec, quoted by claim C2):
"for the first eight bytes, each contributes its low seven bits,
most-significant first; the high bit signals continuation; if the ninth
byte is reached, it contributes all eight of its bits and decoding ends
unconditionally; fails if the source yields end-of-input before
termination; the result is reinterpreted as two's-complement".  Stated
with plain arithmetic (base-128 accumulation, then base-256 for the ninth
byte) rather than the source's shift/or/wrap operations. -/
def varintSpecLoop : Nat → Nat → Reader → Except Err (Int × Reader)
  | 0, acc, r =>
    match r.readByte with
    | .error e => .error e
    | .ok (b, r) => .ok (toInt64 (acc * 256 + b), r)
  | k + 1, acc, r =>
    match r.readByte with
    | .error e => .error e
    | .ok (b, r) =>
      if b < 0x80 then .ok (toInt64 (acc * 128 + b), r)
      else varintSpecLoop k (acc * 128 + (b % 128)) r

/-- Specification-side varint decoder (see `varintSpecLoop`). -/
def varintSpec (r : Reader) : Except Err (Int × Reader) :=
  varintSpecLoop 8 0 r

/-- Disjoint bitwise-or is addition: if `c` fits in the low `k` bits then
or-ing it below `a <<< k` is plain addition. -/
theorem lor_shiftLeft_eq_add (a c k : Nat) (h : c < 2 ^ k) :
    (a <<< k) ||| c = a * 2 ^ k + c := by
  rw [Nat.shiftLeft_eq]
  apply Nat.eq_of_testBit_eq
  intro j
  have hmul : a * 2 ^ k = 2 ^ k * a := Nat.mul_comm _ _
  have h0 : (0 : Nat) < 2 ^ k := Nat.pos_pow_of_pos _ (by omega)
  have hadd := Nat.testBit_mul_pow_two_add a h j
  have hbase := Nat.testBit_mul_pow_two_add a h0 j
  rw [Nat.testBit_lor]
  rw [hmul] at *
  rw [hadd, Nat.add_zero] at *
  rw [hbase]
  by_cases hj : j < k
  · simp [hj, Nat.zero_testBit]
  · simp only [hj, if_false]
    have : c < 2 ^ j := lt_of_lt_of_le h (Nat.pow_le_pow_right (by omega) (by omega))
    rw [Nat.testBit_lt_two_pow this]
    simp


instance instDecEqExcept {ε α : Type} [DecidableEq ε] [DecidableEq α] :
    DecidableEq (Except ε α) := fun
  | .error e, .error f =>
    if h : e = f then .isTrue (by rw [h]) else .isFalse (by intro hc; injection hc; tauto)
  | .error _, .ok _ => .isFalse (by intro hc; injection hc)
  | .ok _, .error _ => .isFalse (by intro hc; injection hc)
  | .ok a, .ok b =>
    if h : a = b then .isTrue (by rw [h]) else .isFalse (by intro hc; injection hc; tauto)

theorem readByte_ok_lt {r r' : Reader} {b : Nat} (h : r.readByte = .ok (b, r')) :
    b < 256 := by
  unfold Reader.readByte at h
  split at h
  · exact absurd h (by simp)
  · injection h with h
    injection h with h1 h2
    omega

theorem varintLoop_eq_specLoop :
    ∀ (k : Nat) (val : Nat) (r : Reader), k ≤ 8 → val < 128 ^ (8 - k) →
      varintLoop k val r = varintSpecLoop k val r := by
  intro k
  induction k with
  | zero =>
    intro val r _ hval
    unfold varintLoop varintSpecLoop
    cases hrb : r.readByte with
    | error e => rfl
    | ok p =>
      obtain ⟨b, r'⟩ := p
      have hb : b < 256 := readByte_ok_lt hrb
      have hval' : val < 2 ^ 56 := by
        have h56 : (128 : Nat) ^ (8 - 0) = 2 ^ 56 := by norm_num
        omega
      have hsh : val <<< 8 = val * 2 ^ 8 := Nat.shiftLeft_eq val 8
      have hlt : val <<< 8 < 2 ^ 64 := by
        rw [hsh]
        have : val * 2 ^ 8 < 2 ^ 56 * 2 ^ 8 := (Nat.mul_lt_mul_right (by norm_num)).mpr hval'
        omega
      dsimp only
      rw [Nat.mod_eq_of_lt hlt, lor_shiftLeft_eq_add val b 8 (by omega)]
      norm_num
  | succ k ih =>
    intro val r hk hval
    unfold varintLoop varintSpecLoop
    cases hrb : r.readByte with
    | error e => rfl
    | ok p =>
      obtain ⟨b, r'⟩ := p
      have hb : b < 256 := readByte_ok_lt hrb
      have hval7 : val < 2 ^ 49 := by
        have h1 : (128 : Nat) ^ (8 - (k + 1)) ≤ 128 ^ 7 :=
          Nat.pow_le_pow_right (by norm_num) (by omega)
        have h2 : (128 : Nat) ^ 7 = 2 ^ 49 := by norm_num
        omega
      have hsh : val <<< 7 = val * 2 ^ 7 := Nat.shiftLeft_eq val 7
      have hlt : val <<< 7 < 2 ^ 64 := by
        rw [hsh]
        have : val * 2 ^ 7 < 2 ^ 49 * 2 ^ 7 := (Nat.mul_lt_mul_right (by norm_num)).mpr hval7
        omega
      have hand : b &&& 0x7f = b % 128 := by
        have h7 := Nat.and_pow_two_sub_one_eq_mod b 7
        norm_num at h7
        exact h7
      dsimp only
      rw [Nat.mod_eq_of_lt hlt, hand, lor_shiftLeft_eq_add val (b % 128) 7 (by omega)]
      by_cases hlt80 : b < 0x80
      · have hmb : b % 128 = b := Nat.mod_eq_of_lt (by omega)
        have h27 : (2 : Nat) ^ 7 = 128 := by norm_num
        simp [hlt80, hmb, h27]
      · simp only [hlt80, if_false]
        have h27 : (2 : Nat) ^ 7 = 128 := by norm_num
        rw [h27]
        apply ih _ _ (by omega)
        have hm : b % 128 < 2 ^ 7 := Nat.mod_lt b (by norm_num)
        have hv1 : val + 1 ≤ 128 ^ (8 - (k + 1)) := hval
        have heq : (128 : Nat) ^ (8 - (k + 1)) * 2 ^ 7 = 128 ^ (8 - k) := by
          have h87 : 8 - (k + 1) + 1 = 8 - k := by omega
          calc (128 : Nat) ^ (8 - (k + 1)) * 2 ^ 7
              = 128 ^ (8 - (k + 1)) * 128 := by norm_num
            _ = 128 ^ (8 - (k + 1) + 1) := by ring
            _ = 128 ^ (8 - k) := by rw [h87]
        have hm2 : b % 128 < 2 ^ 7 := by omega
        calc val * 128 + b % 128
            < (val + 1) * 2 ^ 7 := by nlinarith
          _ ≤ 128 ^ (8 - (k + 1)) * 2 ^ 7 := Nat.mul_le_mul_right _ hv1
          _ = 128 ^ (8 - k) := heq

/-- C2: the varint decoder reads one to nine bytes and returns a signed
64-bit integer: each of the first eight bytes contributes its low seven
bits most-significant first with the high bit signalling continuation, a
ninth byte (if reached) contributes all eight of its bits after a left
shift by eight and ends decoding unconditionally, and end-of-input before
termination fails (`Truncated`, i.e. `io.EOF` here); in particular
`[0x08]` decodes to 8, `[0x88, 0x00]` to 1024, `[0x88, 0x80, 0x03]` to
131075, and `[0x80]` fails. -/
theorem varint_decodes_per_spec :
    (∀ r : Reader, Varint r = varintSpec r)
    ∧ Varint ⟨[0x08], 0⟩ = .ok (8, ⟨[0x08], 1⟩)
    ∧ Varint ⟨[0x88, 0x00], 0⟩ = .ok (1024, ⟨[0x88, 0x00], 2⟩)
    ∧ Varint ⟨[0x88, 0x80, 0x03], 0⟩ = .ok (131075, ⟨[0x88, 0x80, 0x03], 3⟩)
    ∧ Varint ⟨[0x80, 0x80, 0x80, 0x80, 0x80, 0x80, 0x80, 0x80, 0x01], 0⟩ =
        .ok (1, ⟨[0x80, 0x80, 0x80, 0x80, 0x80, 0x80, 0x80, 0x80, 0x01], 9⟩)
    ∧ Varint ⟨[0x80], 0⟩ = .error .eof := by
  refine ⟨fun r => varintLoop_eq_specLoop 8 0 r (by omega) (by norm_num),
    by decide, by decide, by decide, by decide, by decide⟩

/-- Go's truncated integer division (the `/` operator on `int`). -/
def goDiv (a b : Int) : Int := Int.tdiv a b

/-- Go's truncated integer remainder (the `%` operator on `int`). -/
def goMod (a b : Int) : Int := Int.tmod a b

/-- `TreeNode.computeBufferSize` (btree.go): computed size of the total,
local (embedded) and overflown payload, for usable page size `U` and
declared payload size `P`.  In the source `U` is read off the node's file
header; it is passed explicitly here. -/
def computeBufferSize (U P : Int) : Int × Int × Int :=
  let X := U - 35
  if P > X then
    let M := goDiv ((U - 12) * 32) 255 - 23
    let K := M + goMod (P - M) (U - 4)
    let localsz := if K > X then M else K
    (P, localsz, P - localsz)
  else
    (P, P, 0)

/-- Modelled from the spec's words (§4.6 of the spec, quoted by claim C1):
with `X = U - 35`, if `P ≤ X` the entire payload is local and there is no
overflow; otherwise with `M = ((U - 12) * 32 / 255) - 23` and
`K = M + ((P - M) mod (U - 4))`, the local length is `K` if `K ≤ X` else
`M`, and the overflow length is `P - local`.  Returns `(local, overflow)`. -/
def spillSpec (U P : Int) : Int × Int :=
  let X := U - 35
  if P ≤ X then (P, 0)
  else
    let M := goDiv ((U - 12) * 32) 255 - 23
    let K := M + goMod (P - M) (U - 4)
    let localsz := if K ≤ X then K else M
    (localsz, P - localsz)

/-- C1: for every declared payload size `P` and usable page size `U`, the
cell decoder's local/overflow split is exactly the spec's spill formula:
the total is `P`, and the local and overflow lengths are as computed by
`spillSpec` (with `X = U - 35`, local `= P` and overflow `= 0` when
`P ≤ X`, otherwise local `= K` if `K ≤ X` else `M` and overflow
`= P - local`). -/
theorem computeBufferSize_eq_spillSpec (U P : Int) :
    computeBufferSize U P = (P, (spillSpec U P).1, (spillSpec U P).2) := by
  unfold computeBufferSize spillSpec
  by_cases h : P > U - 35
  · have h2 : ¬ P ≤ U - 35 := by omega
    simp only [h, if_true, h2, if_false]
    by_cases h3 : goDiv ((U - 12) * 32) 255 - 23 +
        goMod (P - (goDiv ((U - 12) * 32) 255 - 23)) (U - 4) > U - 35
    · have h4 : ¬ (goDiv ((U - 12) * 32) 255 - 23 +
          goMod (P - (goDiv ((U - 12) * 32) 255 - 23)) (U - 4) ≤ U - 35) := by omega
      simp only [h3, if_true, h4, if_false]
    · have h4 : goDiv ((U - 12) * 32) 255 - 23 +
          goMod (P - (goDiv ((U - 12) * 32) 255 - 23)) (U - 4) ≤ U - 35 := by omega
      simp only [h3, if_false, h4, if_true]
  · have h2 : P ≤ U - 35 := by omega
    simp only [h, if_false, h2, if_true]

/-- `Page` (page.go): a fetched database page; `ID` is its 1-based
location and the byte buffer is exposed through a `Reader` cursor. -/
structure Page where
  id : Int
  r : Reader
  deriving DecidableEq, Repr

/-- `Pager` (page.go): page size, declared page count, and the underlying
byte source (a `bytes.Reader` over the whole file in the source's tests;
`data` is that byte sequence). -/
structure Pager where
  size : Nat
  pages : Int
  data : List Nat
  deriving DecidableEq, Repr

/-- `Pager.ReadPage` (page.go): the source checks only `i > pager.pages`;
for smaller ids it seeks to `(i-1) * size`, which for `i ≤ 0` is negative
and makes the underlying `Seek` fail, and reads exactly `size` bytes with
`io.ReadFull`. -/
def Pager.readPage (p : Pager) (i : Int) : Except Err Page :=
  if i > p.pages then .error (.pageOutOfRange i p.pages)
  else if (i - 1) * (p.size : Int) < 0 then .error .seekNegative
  else
    match Reader.readExact ⟨p.data, ((i - 1) * (p.size : Int)).toNat⟩ p.size with
    | .error e => .error e
    | .ok (buf, _) => .ok ⟨i, ⟨buf, 0⟩⟩

/-- C7 counterexample: the claim says `read_page(0)` fails with
`OutOfRange`, but the source's guard checks only the upper bound, so
`read_page(0)` instead fails when seeking to the negative offset
`(0 - 1) * page_size`; on a pager with `page_size = 512` and 4 declared
pages the result is the seek error, not the out-of-range error. -/
theorem readPage_zero_not_outOfRange :
    Pager.readPage ⟨512, 4, List.replicate 2048 0⟩ 0 = .error .seekNegative
    ∧ Pager.readPage ⟨512, 4, List.replicate 2048 0⟩ 0 ≠
        .error (.pageOutOfRange 0 4) := by
  constructor
  · rfl
  · intro h
    exact absurd (rfl.trans h) (by decide)

/-- C7 amended: `read_page(id)` fails with `OutOfRange` exactly for
`id > declared_pages`; for `id ≤ 0` it fails with the underlying seek's
negative-position error instead; and for every id within `1..declared_pages`
(with the file long enough) it reads exactly `page_size` bytes at offset
`(id - 1) * page_size`. -/
theorem readPage_bounds (size : Nat) (pages : Int) (data : List Nat) (i : Int) :
    (i > pages → Pager.readPage ⟨size, pages, data⟩ i = .error (.pageOutOfRange i pages))
    ∧ (i ≤ pages → i ≤ 0 → 0 < size → Pager.readPage ⟨size, pages, data⟩ i = .error .seekNegative)
    ∧ (1 ≤ i → i ≤ pages → i * (size : Int) ≤ (data.length : Int) →
        Pager.readPage ⟨size, pages, data⟩ i =
          .ok ⟨i, ⟨((data.drop (((i - 1) * (size : Int)).toNat)).take size).map (· % 256), 0⟩⟩) := by
  refine ⟨fun h => ?_, fun h1 h2 h3 => ?_, fun h1 h2 h3 => ?_⟩
  · unfold Pager.readPage
    simp only [h, if_true]
  · unfold Pager.readPage
    have hn : ¬ i > pages := by omega
    have hneg : (i - 1) * (size : Int) < 0 := by
      have h4 : i - 1 ≤ -1 := by omega
      have h5 : (0 : Int) < size := by exact_mod_cast h3
      nlinarith
    simp only [hn, if_false, hneg, if_true]
  · unfold Pager.readPage
    have hn : ¬ i > pages := by omega
    have h0 : (0 : Int) ≤ (i - 1) * (size : Int) := by
      have := Int.natCast_nonneg size
      exact mul_nonneg (by omega) this
    have hneg : ¬ ((i - 1) * (size : Int) < 0) := by omega
    simp only [hn, if_false, hneg]
    unfold Reader.readExact
    have hsum : ((i - 1) * (size : Int)).toNat + size = (i * (size : Int)).toNat := by
      have hring : i * (size : Int) = (i - 1) * (size : Int) + size := by ring
      omega
    have hle : ((i - 1) * (size : Int)).toNat + size ≤ data.length := by omega
    have hc1 : ¬ (0 < size ∧ data.length ≤ ((i - 1) * (size : Int)).toNat) := by omega
    have hc2 : ¬ (data.length - ((i - 1) * (size : Int)).toNat < size) := by omega
    simp only [hc1, if_false, hc2]

/-- C7 amended witness at a concrete pager (`page_size = 4`, 4 pages,
16 file bytes): id 5 is rejected as out of range, id 0 fails with the
negative seek, and id 2 reads bytes 4..8. -/
theorem readPage_bounds_witness :
    Pager.readPage ⟨4, 4, [0, 1, 2, 3, 4, 5, 6, 7, 8, 9, 10, 11, 12, 13, 14, 15]⟩ 5 =
        .error (.pageOutOfRange 5 4)
    ∧ Pager.readPage ⟨4, 4, [0, 1, 2, 3, 4, 5, 6, 7, 8, 9, 10, 11, 12, 13, 14, 15]⟩ 0 =
        .error .seekNegative
    ∧ Pager.readPage ⟨4, 4, [0, 1, 2, 3, 4, 5, 6, 7, 8, 9, 10, 11, 12, 13, 14, 15]⟩ 2 =
        .ok ⟨2, ⟨[4, 5, 6, 7], 0⟩⟩ := by
  refine ⟨(readPage_bounds 4 4 _ 5).1 (by decide),
    (readPage_bounds 4 4 _ 0).2.1 (by decide) (by decide) (by decide), ?_⟩
  have h := (readPage_bounds 4 4 [0, 1, 2, 3, 4, 5, 6, 7, 8, 9, 10, 11, 12, 13, 14, 15] 2).2.2
    (by decide) (by decide) (by decide)
  simpa using h

/-- Values already in `[0, 2 ^ 31)` are fixed by `int32` truncation. -/
theorem wrapInt32_small (v : Int) (h0 : 0 ≤ v) (h1 : v < 2 ^ 31) : wrapInt32 v = v := by
  unfold wrapInt32
  have hm : v % 2 ^ 32 = v := Int.emod_eq_of_lt h0 (by omega)
  simp only [hm]
  omega

/-- Size-determination logic of `Open` (the header decoder): when the
in-header size is zero or the change counter disagrees with the
version-valid-for field, the page count is recomputed from the file length
as `(file_len + page_size - 1) / page_size` in `int64` arithmetic and then
truncated to `int32` when stored back into the header (whose `Size` field
is an `int32`); `NumPages` reports that stored value.  (For
`page_size = 0` the Go source would panic with a division by zero; Lean's
convention gives 0 there, and the theorems below assume a positive page
size.) -/
def openNumPages (inHeaderSize changeCounter versionValid : Int)
    (fileLen : Int) (pageSize : Nat) : Int :=
  if inHeaderSize = 0 ∨ changeCounter ≠ versionValid then
    wrapInt32 (goDiv (fileLen + pageSize - 1) pageSize)
  else inHeaderSize

/-- C6 counterexample: the claim says the recomputed page count equals
`ceil(file_len / page_size)` for every opened file, but the source stores
the recomputed count into the header's `int32` size field; for a file of
`2 ^ 40` bytes with 512-byte pages the true ceiling is `2 ^ 31`, which
wraps to `-2 ^ 31`. -/
theorem openNumPages_int32_overflow :
    openNumPages 0 0 0 (2 ^ 40) 512 = -(2 ^ 31)
    ∧ (-(2 ^ 31) : Int) ≠ (2 ^ 40 + 512 - 1) / 512 := by
  constructor
  · rfl
  · decide

/-- C6 amended: if the in-header page count is zero or the change counter
differs from the version-valid-for field, the reported page count equals
`ceil(file_len / page_size)` (computed as
`(file_len + page_size - 1) / page_size`), provided that ceiling fits in
an `int32`; otherwise the reported count is the in-header page count. -/
theorem openNumPages_correct (inSz cc vv : Int) (fileLen pageSize : Nat)
    (hps : 0 < pageSize)
    (hbound : (fileLen + pageSize - 1) / pageSize < 2 ^ 31) :
    ((inSz = 0 ∨ cc ≠ vv) →
      openNumPages inSz cc vv fileLen pageSize =
        ((fileLen + pageSize - 1) / pageSize : Nat))
    ∧ (¬ (inSz = 0 ∨ cc ≠ vv) →
      openNumPages inSz cc vv fileLen pageSize = inSz) := by
  constructor
  · intro hcond
    unfold openNumPages
    simp only [hcond, if_true]
    have hcast : ((fileLen : Int) + pageSize - 1) = ((fileLen + pageSize - 1 : Nat) : Int) := by
      omega
    unfold goDiv
    rw [hcast]
    have htdiv : Int.tdiv ((fileLen + pageSize - 1 : Nat) : Int) ((pageSize : Nat) : Int) =
        ((fileLen + pageSize - 1) / pageSize : Nat) := rfl
    rw [htdiv]
    exact wrapInt32_small _ (by positivity) (by exact_mod_cast hbound)
  · intro hcond
    unfold openNumPages
    simp only [hcond, if_false]

/-- C6 amended witness: the chinook scenario from the claim, a
1024-byte-page file of 1,042 pages (1,067,008 bytes) whose in-header size
field is zeroed, reports 1042 pages. -/
theorem openNumPages_correct_witness :
    openNumPages 0 7 7 1067008 1024 = 1042 := by
  have h := (openNumPages_correct 0 7 7 1067008 1024 (by decide) (by decide)).1 (Or.inl rfl)
  simpa using h

/-- `binary.Read` of a big-endian `int32` from a reader. -/
def readInt32 (r : Reader) : Except Err (Int × Reader) :=
  match r.readExact 4 with
  | .error e => .error e
  | .ok (bs, r) => .ok (toInt32 (beNat bs), r)

/-- Length of the current overflow page buffer (`o.page.Len()`, with a
nil page counting as exhausted). -/
def pageLen : Option Reader → Nat
  | none => 0
  | some r => r.len

/-- `overflow` (the overflow-page reader): next page id in the chain,
current page, configured usable size, and bytes left to read.  The
source also stores the total size, which its `Read` never uses. -/
structure Overflow where
  next : Int
  page : Option Reader
  usable : Int
  left : Int
  deriving DecidableEq, Repr

/-- `newOverflowReader(pager, page, usable, size)`. -/
def newOverflowReader (page : Int) (usable size : Int) : Overflow :=
  ⟨page, none, usable, size⟩

/-- Body of `overflow.Read` from the `fetch:` label onwards; the fuel
bounds the `goto fetch` loop (which the control flow can take at most
once per call).  Models one `Read(buf)` call with a buffer of `bufLen`
bytes: fetch a page if the current one is nil or exhausted (consuming its
4-byte big-endian next-page-id header), shrink the buffer to
`min(len(buf), left, usable-4)`, and copy from the current page. -/
def overflowFetch (pager : Pager) : Nat → Overflow → Nat → Except Err (List Nat × Overflow)
  | 0, _, _ => .error .outOfFuel
  | g + 1, o, bufLen =>
    let fetched : Except Err (Reader × Int) :=
      match o.page with
      | some pr =>
        if pr.len = 0 then
          match pager.readPage o.next with
          | .error e => .error e
          | .ok pg =>
            match readInt32 pg.r with
            | .error e => .error e
            | .ok (nx, pr') => .ok (pr', nx)
        else .ok (pr, o.next)
      | none =>
        match pager.readPage o.next with
        | .error e => .error e
        | .ok pg =>
          match readInt32 pg.r with
          | .error e => .error e
          | .ok (nx, pr') => .ok (pr', nx)
    match fetched with
    | .error e => .error e
    | .ok (pr, nx) =>
      let m : Int := min (min (bufLen : Int) o.left) (o.usable - 4)
      if m < 0 then .error .panicSliceBounds
      else if pr.s.length ≤ pr.i then
        -- the page cursor is exhausted: `page.Read` returns `(0, io.EOF)`
        if nx = 0 then
          if o.left ≠ 0 then .error .unexpectedEof
          else overflowFetch pager g ⟨nx, some pr, o.usable, o.left⟩ bufLen
        else .error .eof
      else
        let n := min m.toNat (pr.s.length - pr.i)
        .ok (((pr.s.drop pr.i).take n).map (· % 256),
          ⟨nx, some ⟨pr.s, pr.i + n⟩, o.usable, o.left - n⟩)

/-- `overflow.Read`: the top-of-call termination check, then the fetch
loop. -/
def overflowRead (pager : Pager) (o : Overflow) (bufLen : Nat) :
    Except Err (List Nat × Overflow) :=
  if (o.page = none ∨ pageLen o.page = 0 ∨ o.left = 0) ∧ o.next = 0 then
    if o.left ≠ 0 then .error .unexpectedEof else .error .eof
  else overflowFetch pager 2 o bufLen

/-- `io.Copy` over an overflow reader, as performed by `LoadCell`: calls
`Read` with a 32 KiB buffer until it reports `io.EOF` (clean end) or any
other error; the fuel bounds the number of `Read` calls and running out of
it marks a non-terminating copy. -/
def overflowReadAll (pager : Pager) : Nat → Overflow → List Nat → Except Err (List Nat)
  | 0, _, _ => .error .outOfFuel
  | fuel + 1, o, acc =>
    match overflowRead pager o 32768 with
    | .error .eof => .ok acc
    | .error e => .error e
    | .ok (bs, o') => overflowReadAll pager fuel o' (acc ++ bs)

/-- C3: evaluation of the overflow reader at the failing input for the
claim.  Page size 16 with one reserved byte per page (usable `U = 15`),
two chained overflow pages whose payload areas hold bytes `1..12` and
`101..112`, and a declared count of 13 bytes.  The claim says each page
exposes at most `U - 4 = 11` payload bytes before the next page is
fetched, so the stream should be `1..11, 101, 102`; the source only
fetches the next page once the in-memory page buffer (`page_size - 4 = 12`
bytes) is exhausted, so it returns byte 12 — the page's reserved tail —
as payload: the stream is `1..12, 101`.  The truncation behaviour the
claim also states (zero next-pointer with bytes owed) does hold, shown
here by asking 20 bytes of the 12-byte final page. -/
theorem overflowRead_uses_page_tail :
    overflowReadAll ⟨16, 2,
        [0, 0, 0, 2, 1, 2, 3, 4, 5, 6, 7, 8, 9, 10, 11, 12,
         0, 0, 0, 0, 101, 102, 103, 104, 105, 106, 107, 108, 109, 110, 111, 112]⟩
        20 (newOverflowReader 1 15 13) [] =
      .ok [1, 2, 3, 4, 5, 6, 7, 8, 9, 10, 11, 12, 101]
    ∧ [1, 2, 3, 4, 5, 6, 7, 8, 9, 10, 11, 12, 101] ≠
        [1, 2, 3, 4, 5, 6, 7, 8, 9, 10, 11, 101, 102]
    ∧ overflowReadAll ⟨16, 2,
        [0, 0, 0, 2, 1, 2, 3, 4, 5, 6, 7, 8, 9, 10, 11, 12,
         0, 0, 0, 0, 101, 102, 103, 104, 105, 106, 107, 108, 109, 110, 111, 112]⟩
        20 (newOverflowReader 2 16 20) [] = .error .unexpectedEof := by
  refine ⟨by decide, by decide, by decide⟩

/-- Relevant fields of the parsed 100-byte file header (`Header` in the
source): page size (`uint16`), reserved tail (`byte`) and text encoding. -/
structure FileHeader where
  pageSize : Nat
  pageReserved : Nat
  encoding : Nat
  deriving DecidableEq, Repr

/-- `File`: the parsed header plus the pager over the byte source. -/
structure File where
  header : FileHeader
  pager : Pager
  deriving DecidableEq, Repr

/-- Usable page size as computed throughout the source:
`int(header.PageSize - uint16(header.PageReserved))`, i.e. a `uint16`
subtraction. -/
def usableSize (h : FileHeader) : Int :=
  ((h.pageSize % 65536 + 65536 - h.pageReserved % 256) % 65536 : Nat)

/-- `TreeHeader` (btree.go): page-type byte, first-freeblock offset, cell
count, cell-content-area offset and fragmented-free-bytes count (the
numeric fields are `int16`/`int8` and decoded big-endian). -/
structure TreeHeader where
  kind : Nat
  freeBlockOffset : Int
  numCells : Int
  cellsOffset : Int
  numFreeBytes : Int
  deriving DecidableEq, Repr

/-- `TreeNode` (btree.go): parsed node header, the id and reader of the
backing page, the cell-pointer array, and the right-most child pointer
(zero unless the node is interior). -/
structure TreeNode where
  header : TreeHeader
  pageId : Int
  page : Reader
  cells : List Int
  right : Int
  deriving DecidableEq, Repr

/-- Reads `n` big-endian `int16` cell pointers (the loop in `newNode`). -/
def readCellPtrs : Nat → Reader → List Int → Except Err (List Int × Reader)
  | 0, r, acc => .ok (acc.reverse, r)
  | n + 1, r, acc =>
    match r.readExact 2 with
    | .error e => .error e
    | .ok (bs, r) => readCellPtrs n r (toInt16 (beNat bs) :: acc)

/-- `newNode` (btree.go): skip the 100-byte file header on page 1, read
the 8-byte node header, read the right-child pointer iff the node kind is
table-interior (0x05) or index-interior (0x02), then read the cell-pointer
array.  A negative cell count would make the Go `make` call panic. -/
def newNode (f : File) (page : Page) : Except Err TreeNode :=
  let pr : Reader := if page.id = 1 then ⟨page.r.s, 100⟩ else page.r
  match pr.readExact 8 with
  | .error e => .error e
  | .ok (hb, pr) =>
    let hdr : TreeHeader :=
      { kind := hb.getD 0 0,
        freeBlockOffset := toInt16 (hb.getD 1 0 * 256 + hb.getD 2 0),
        numCells := toInt16 (hb.getD 3 0 * 256 + hb.getD 4 0),
        cellsOffset := toInt16 (hb.getD 5 0 * 256 + hb.getD 6 0),
        numFreeBytes := toInt8 (hb.getD 7 0) }
    match (if hdr.kind = 5 ∨ hdr.kind = 2 then readInt32 pr else .ok (0, pr)) with
    | .error e => .error e
    | .ok (right, pr) =>
      if hdr.numCells < 0 then .error .panicNegativeMake
      else
        match readCellPtrs hdr.numCells.toNat pr [] with
        | .error e => .error e
        | .ok (cells, pr) => .ok ⟨hdr, page.id, pr, cells, right⟩

/-- `Cell` (btree.go): left-child page number, payload size (including
overflow), rowid, and the payload buffer exposed through a reader. -/
structure Cell where
  leftChild : Int := 0
  size : Int := 0
  rowid : Int := 0
  r : Reader := ⟨[], 0⟩
  deriving DecidableEq, Repr

/-- `io.CopyN(buffer, reader, n)`: exactly `n` bytes, or `io.EOF` when the
reader holds fewer; a non-positive `n` copies nothing. -/
def copyN (r : Reader) (n : Int) : Except Err (List Nat × Reader) :=
  if n ≤ 0 then .ok ([], r)
  else if (r.len : Int) < n then .error .eof
  else .ok (((r.s.drop r.i).take n.toNat).map (· % 256), ⟨r.s, r.i + n.toNat⟩)

/-- Payload assembly shared by the three payload-carrying branches of
`LoadCell`: split the declared size via `computeBufferSize`, copy the
local bytes from the page, and when there is overflow read the 4-byte
first-overflow-page id and stitch in the overflow chain; finally insist
the assembled buffer holds exactly `total` bytes. -/
def loadPayload (f : File) (pr : Reader) (size : Int) : Except Err (List Nat × Reader) :=
  let u := usableSize f.header
  let t := computeBufferSize u size
  match copyN pr t.2.1 with
  | .error e => .error e
  | .ok (localBytes, pr) =>
    if t.2.2 > 0 then
      match readInt32 pr with
      | .error e => .error e
      | .ok (op, pr) =>
        match overflowReadAll f.pager (t.2.2.toNat + 4) (newOverflowReader op u t.2.2) [] with
        | .error e => .error e
        | .ok obytes =>
          let buffer := localBytes ++ obytes
          if (buffer.length : Int) ≠ t.1 then
            .error (.payloadSizeMismatch buffer.length t.1)
          else .ok (buffer, pr)
    else
      if ((localBytes.length : Int)) ≠ t.1 then
        .error (.payloadSizeMismatch localBytes.length t.1)
      else .ok (localBytes, pr)

/-- `TreeNode.LoadCell` (btree.go): seek to the cell's pointer and decode
it according to the node kind — table-interior (0x05): left child and
rowid only; table-leaf (0x0d): size varint, rowid varint, payload;
index-interior (0x02): left child, size varint, payload; index-leaf
(0x0a): size varint, payload.  Any other kind panics in the source. -/
def LoadCell (f : File) (node : TreeNode) (pos : Nat) : Except Err Cell :=
  match node.cells.get? pos with
  | none => .error .panicIndexOutOfRange
  | some addr =>
    match node.page.seekStart addr with
    | .error e => .error e
    | .ok pr =>
      match node.header.kind with
      | 5 =>
        match readInt32 pr with
        | .error e => .error e
        | .ok (left, pr) =>
          match Varint pr with
          | .error _ => .error (.errDecodingRowid node.pageId pos)
          | .ok (rowid, _) => .ok { leftChild := left, rowid := rowid }
      | 13 =>
        match Varint pr with
        | .error _ => .error (.errDecodingSize node.pageId pos)
        | .ok (size, pr) =>
          match Varint pr with
          | .error _ => .error (.errDecodingRowid node.pageId pos)
          | .ok (rowid, pr) =>
            match loadPayload f pr size with
            | .error e => .error e
            | .ok (buffer, _) => .ok { size := size, rowid := rowid, r := ⟨buffer, 0⟩ }
      | 2 =>
        match readInt32 pr with
        | .error e => .error e
        | .ok (left, pr) =>
          match Varint pr with
          | .error _ => .error (.errDecodingSize node.pageId pos)
          | .ok (size, pr) =>
            match loadPayload f pr size with
            | .error e => .error e
            | .ok (buffer, _) => .ok { leftChild := left, size := size, r := ⟨buffer, 0⟩ }
      | 10 =>
        match Varint pr with
        | .error _ => .error (.errDecodingSize node.pageId pos)
        | .ok (size, pr) =>
          match loadPayload f pr size with
          | .error e => .error e
          | .ok (buffer, _) => .ok { size := size, r := ⟨buffer, 0⟩ }
      | k => .error (.panicUnknownNodeKind k)

/-- Fetch a page, parse it as a node, and continue with `recurse` — the
three-line pattern `ReadPage / newNode / tree.walk` used for both
left-child and right-child recursion in `Tree.walk`. -/
def walkChild (f : File) (recurse : TreeNode → Except Err Unit) (pid : Int) :
    Except Err Unit :=
  match f.pager.readPage pid with
  | .error e => .error e
  | .ok page =>
    match newNode f page with
    | .error e => .error e
    | .ok child => recurse child

/-- The cell loop of `Tree.walk` (`for i := 0; i < node.NumCells(); i++`):
`rem` counts the remaining iterations and `i` is the loop index.  For each
cell: load it; if its left-child pointer is nonzero, recurse into that
page first; then, unless the node is table-interior, invoke the visitor;
stop at the first error. -/
def walkCells (f : File) (fn : Cell → Except Err Unit)
    (recurse : TreeNode → Except Err Unit) (node : TreeNode) :
    Nat → Nat → Except Err Unit
  | 0, _ => .ok ()
  | rem + 1, i =>
    match LoadCell f node i with
    | .error e => .error e
    | .ok cell =>
      match (if cell.leftChild ≠ 0 then walkChild f recurse cell.leftChild else .ok ()) with
      | .error e => .error e
      | .ok _ =>
        match (if node.header.kind ≠ 5 then fn cell else .ok ()) with
        | .error e => .error e
        | .ok _ => walkCells f fn recurse node rem (i + 1)

/-- `Tree.walk` (btree.go), with explicit recursion fuel: run the cell
loop, then recurse into the nonzero right child.  The source has no depth
bound; exhausting the fuel marks a walk that has not terminated within
that recursion depth. -/
def walk (f : File) (fn : Cell → Except Err Unit) : Nat → TreeNode → Except Err Unit
  | 0, _ => .error .outOfFuel
  | fuel + 1, node =>
    match walkCells f fn (fun child => walk f fn fuel child) node node.header.numCells.toNat 0 with
    | .error e => .error e
    | .ok _ =>
      if node.right ≠ 0 then walkChild f (fun child => walk f fn fuel child) node.right
      else .ok ()

/-- Modelled from the spec's words (§4.7 of the spec, quoted by claim C4):
"for each cell in index order `0..num_cells`: (a) if a left-child pointer
exists on this cell (absence being encoded as zero), recurse into it
first; (b) unless this node is table-interior, invoke the visitor with the
decoded cell" — written as structural recursion over the list of cell
indices, with the visitor's error short-circuiting the traversal. -/
def walkSpecCells (f : File) (fn : Cell → Except Err Unit)
    (recurse : TreeNode → Except Err Unit) (node : TreeNode) :
    List Nat → Except Err Unit
  | [] => .ok ()
  | i :: rest =>
    match LoadCell f node i with
    | .error e => .error e
    | .ok cell =>
      match (if cell.leftChild ≠ 0 then walkChild f recurse cell.leftChild else .ok ()) with
      | .error e => .error e
      | .ok _ =>
        match (if node.header.kind ≠ 5 then fn cell else .ok ()) with
        | .error e => .error e
        | .ok _ => walkSpecCells f fn recurse node rest

/-- Modelled from the spec's words (§4.7): process the cells in index
order `0..num_cells`, and "after all cells, if `right_child` is nonzero,
recurse into it"; any error aborts the traversal and is returned to the
caller verbatim. -/
def walkSpec (f : File) (fn : Cell → Except Err Unit) : Nat → TreeNode → Except Err Unit
  | 0, _ => .error .outOfFuel
  | fuel + 1, node =>
    match walkSpecCells f fn (fun child => walkSpec f fn fuel child) node
        (List.range node.header.numCells.toNat) with
    | .error e => .error e
    | .ok _ =>
      if node.right ≠ 0 then walkChild f (fun child => walkSpec f fn fuel child) node.right
      else .ok ()

theorem walkChild_congr (f : File) (r1 r2 : TreeNode → Except Err Unit)
    (h : ∀ n, r1 n = r2 n) (pid : Int) : walkChild f r1 pid = walkChild f r2 pid := by
  unfold walkChild
  cases f.pager.readPage pid with
  | error e => rfl
  | ok page =>
    dsimp only
    cases newNode f page with
    | error e => rfl
    | ok child => exact h child

theorem walkCells_eq_walkSpecCells (f : File) (fn : Cell → Except Err Unit)
    (r1 r2 : TreeNode → Except Err Unit) (h : ∀ n, r1 n = r2 n) (node : TreeNode) :
    ∀ (rem i : Nat),
      walkCells f fn r1 node rem i = walkSpecCells f fn r2 node (List.range' i rem) := by
  intro rem
  induction rem with
  | zero => intro i; rfl
  | succ rem ih =>
    intro i
    rw [List.range'_succ]
    unfold walkCells walkSpecCells
    cases LoadCell f node i with
    | error e => rfl
    | ok cell =>
      dsimp only
      rw [show (if cell.leftChild ≠ 0 then walkChild f r1 cell.leftChild else .ok ())
            = (if cell.leftChild ≠ 0 then walkChild f r2 cell.leftChild else .ok ()) from by
        by_cases hc : cell.leftChild ≠ 0
        · rw [if_pos hc, if_pos hc]
          exact walkChild_congr f r1 r2 h _
        · rw [if_neg hc, if_neg hc]]
      cases (if cell.leftChild ≠ 0 then walkChild f r2 cell.leftChild else .ok ()) with
      | error e => rfl
      | ok u =>
        dsimp only
        cases (if node.header.kind ≠ 5 then fn cell else .ok ()) with
        | error e => rfl
        | ok u => exact ih (i + 1)

/-- C4: the walker visits cells in in-order.  The source's `Tree.walk`
(embedded as `walk`, an index-counting loop over the cell-pointer array
with recursion into children) agrees, for every file, visitor, recursion
budget and node, with `walkSpec`, which is written from the claim's words:
for each cell in index order `0..num_cells` it first recurses into the
cell's left child when that pointer exists (nonzero), then invokes the
visitor with the decoded cell unless the node is table-interior, after all
cells recurses into the nonzero right child, and any visitor error aborts
the traversal and is returned verbatim. -/
theorem walk_eq_walkSpec :
    ∀ (fuel : Nat) (f : File) (fn : Cell → Except Err Unit) (node : TreeNode),
      walk f fn fuel node = walkSpec f fn fuel node := by
  intro fuel
  induction fuel with
  | zero => intro f fn node; rfl
  | succ fuel ih =>
    intro f fn node
    unfold walk walkSpec
    rw [List.range_eq_range']
    rw [walkCells_eq_walkSpecCells f fn (fun child => walk f fn fuel child)
      (fun child => walkSpec f fn fuel child) (fun n => ih f fn n) node _ 0]
    cases walkSpecCells f fn (fun child => walkSpec f fn fuel child) node
        (List.range' 0 node.header.numCells.toNat) with
    | error e => rfl
    | ok u =>
      dsimp only
      by_cases hr : node.right ≠ 0
      · rw [if_pos hr, if_pos hr]
        exact walkChild_congr f _ _ (fun n => ih f fn n) node.right
      · rw [if_neg hr, if_neg hr]

/-- A cyclic database: two 16-byte pages, where page 2 parses as an
index-interior node with zero cells whose right-child pointer is page 2
itself. -/
def cyclicPager : Pager :=
  ⟨16, 2, [0, 0, 0, 0, 0, 0, 0, 0, 0, 0, 0, 0, 0, 0, 0, 0,
           2, 0, 0, 0, 0, 0, 0, 0, 0, 0, 0, 2, 0, 0, 0, 0]⟩

/-- The cyclic file built over `cyclicPager` (page size 16, no reserved
tail, UTF-8 encoding). -/
def cyclicFile : File := ⟨⟨16, 0, 1⟩, cyclicPager⟩

/-- The node obtained by parsing page 2 of `cyclicFile`: index-interior,
no cells, right child = 2 (its own page). -/
def cyclicNode : TreeNode :=
  ⟨⟨2, 0, 0, 0, 0⟩, 2, ⟨[2, 0, 0, 0, 0, 0, 0, 0, 0, 0, 0, 2, 0, 0, 0, 0], 12⟩, [], 2⟩

/-- Parsing page 2 of the cyclic file really yields `cyclicNode`. -/
theorem cyclicNode_parses :
    (match cyclicPager.readPage 2 with
     | .error e => (.error e : Except Err TreeNode)
     | .ok page => newNode cyclicFile page) = .ok cyclicNode := by
  decide

/-- On the cyclic file the walk burns one unit of fuel per recursion into
the right child and never returns anything but fuel exhaustion. -/
theorem cyclicWalk_outOfFuel (fn : Cell → Except Err Unit) :
    ∀ fuel : Nat, walk cyclicFile fn fuel cyclicNode = .error .outOfFuel := by
  intro fuel
  induction fuel with
  | zero => rfl
  | succ fuel ih => exact ih

/-- C8 counterexample: the claim says the tree walk terminates on every
input, a cyclic file being rejected via the declared page-count bound with
a `Corruption` error; but on the concrete cyclic file the walk is still
recursing after 1000 levels (and, by `cyclicWalk_outOfFuel`, after any
number of levels), producing no error and no result. -/
theorem walk_cyclic_no_termination :
    walk cyclicFile (fun _ => .ok ()) 1000 cyclicNode = .error .outOfFuel := by
  exact cyclicWalk_outOfFuel _ 1000

/-- C8 amended: the walker does not detect cycles and does not bound its
recursion depth: on the cyclic file it exhausts every recursion budget (it
does not terminate) instead of failing with `Corruption`; the declared
page-count bound only makes fetches of page ids beyond `declared_pages`
fail with the pager's out-of-range error, which a cycle through valid page
ids never triggers. -/
theorem walk_cyclic_unbounded :
    (∀ (fn : Cell → Except Err Unit) (fuel : Nat),
      walk cyclicFile fn fuel cyclicNode = .error .outOfFuel)
    ∧ cyclicPager.readPage 3 = .error (.pageOutOfRange 3 2) := by
  exact ⟨fun fn fuel => cyclicWalk_outOfFuel fn fuel, by decide⟩

/-- `typeSize` (utils.go): on-disk body size of a serial type. -/
def typeSize (v : Int) : Int :=
  if v > 0 ∧ v ≤ 4 then v
  else if v = 5 then 6
  else if v = 6 ∨ v = 7 then 8
  else if v ≥ 12 ∧ goMod v 2 = 0 then goDiv (v - 12) 2
  else if v ≥ 13 ∧ goMod v 2 = 1 then goDiv (v - 13) 2
  else 0

/-- `RecordVal`: serial type and body offset (from the start of the cell
region) of one value in a record. -/
structure RecordVal where
  type : Int
  offset : Int
  deriving DecidableEq, Repr

/-- `Record`: the file's text encoding, the backing cell reader, and the
per-value metadata computed by `NewRecord`. -/
structure Record where
  encoding : Nat
  cell : Reader
  values : List RecordVal
  deriving DecidableEq, Repr

/-- `NumValues`: number of values contained in the record. -/
def NumValues (rec : Record) : Nat := rec.values.length

/-- Header-parsing loop of `NewRecord`: while fewer than `headerSize`
bytes of serial-type varints have been consumed, read one varint, record
`(type, offset)` and advance the body offset by the type's body size.  The
fuel dominates the iteration count (each successful varint consumes at
least one byte); running out of it marks a non-terminating loop. -/
def recordValsLoop :
    Nat → Int → Int → Int → Reader → List RecordVal →
      Except Err (List RecordVal × Reader)
  | 0, _, _, _, _, _ => .error .outOfFuel
  | fuel + 1, i, headerSize, body, cell, acc =>
    if i < headerSize then
      let n := cell.len
      match Varint cell with
      | .error e => .error e
      | .ok (v, cell') =>
        recordValsLoop fuel (i + ((n - cell'.len : Nat) : Int)) headerSize
          (body + typeSize v) cell' (⟨v, body⟩ :: acc)
    else .ok (acc.reverse, cell)

/-- `NewRecord`: read the inclusive header-size varint `H`, then parse
serial types while fewer than `H` minus the size of `H`'s own encoding
bytes have been consumed; body offsets start at `H`. -/
def NewRecord (enc : Nat) (cell : Reader) : Except Err Record :=
  let n := cell.len
  match Varint cell with
  | .error e => .error e
  | .ok (v, cell') =>
    let headerSize : Int := v - ((n - cell'.len : Nat) : Int)
    match recordValsLoop (headerSize.toNat + 1) 0 headerSize v cell' [] with
    | .error e => .error e
    | .ok (values, cell'') => .ok ⟨enc, cell'', values⟩

/-- A decoded record value.  Floating-point values are carried as their
raw IEEE-754 big-endian bit pattern (the reader performs no arithmetic on
them); text carries the encoded bytes after NUL truncation. -/
inductive Value where
  | null : Value
  | int (v : Int) : Value
  | real (bits : Nat) : Value
  | blob (bs : List Nat) : Value
  | text (bs : List Nat) : Value
  deriving DecidableEq, Repr

/-- `Record.ValueAt` (the record decoder): guard `c > NumValues()` (note:
not `≥`, so `c = NumValues()` reaches the slice index and panics), seek to
the value's precomputed offset with the seek error ignored (a negative
offset leaves the cursor in place), then decode by serial type exactly as
the source does — including its 24-bit decode, which zero-extends the
patched `uint32` through `int64(binary.BigEndian.Uint32(bs))`, and its
48-bit decode, which patches only the first of the two high bytes before
`int64(binary.BigEndian.Uint64(bs))`. -/
def ValueAt (rec : Record) (c : Int) : Except Err Value :=
  if c > (rec.values.length : Int) then .error (.columnOutOfRange c)
  else
    match (if 0 ≤ c then rec.values.get? c.toNat else none) with
    | none => .error .panicIndexOutOfRange
    | some val =>
      let cell : Reader :=
        if val.offset < 0 then rec.cell else ⟨rec.cell.s, val.offset.toNat⟩
      if val.type = 0 then .ok .null
      else if val.type = 1 then
        match cell.readExact 1 with
        | .error e => .error e
        | .ok (bs, _) => .ok (.int (toInt8 (beNat bs)))
      else if val.type = 2 then
        match cell.readExact 2 with
        | .error e => .error e
        | .ok (bs, _) => .ok (.int (toInt16 (beNat bs)))
      else if val.type = 3 then
        match cell.read 3 with
        | .error _ => .error .failedDecode24
        | .ok (bs, _) =>
          if bs.length ≠ 3 then .error .failedDecode24
          else
            let b0 : Nat := if 0x80 ≤ bs.getD 0 0 then 0xff else 0x00
            .ok (.int (beNat (b0 :: bs)))
      else if val.type = 4 then
        match cell.readExact 4 with
        | .error e => .error e
        | .ok (bs, _) => .ok (.int (toInt32 (beNat bs)))
      else if val.type = 5 then
        match cell.read 6 with
        | .error _ => .error .failedDecode48
        | .ok (bs, _) =>
          if bs.length ≠ 6 then .error .failedDecode48
          else
            let b0 : Nat := if 0x80 ≤ bs.getD 0 0 then 0xff else 0x00
            .ok (.int (toInt64 (beNat (b0 :: 0 :: bs))))
      else if val.type = 6 then
        match cell.readExact 8 with
        | .error e => .error e
        | .ok (bs, _) => .ok (.int (toInt64 (beNat bs)))
      else if val.type = 7 then
        match cell.readExact 8 with
        | .error e => .error e
        | .ok (bs, _) => .ok (.real (beNat bs))
      else if val.type = 8 then .ok (.int 0)
      else if val.type = 9 then .ok (.int 1)
      else if val.type ≥ 12 ∧ goMod val.type 2 = 0 then
        match cell.readExact (goDiv (val.type - 12) 2).toNat with
        | .error e => .error e
        | .ok (bs, _) => .ok (.blob bs)
      else if val.type ≥ 13 ∧ goMod val.type 2 ≠ 0 then
        match cell.readExact (goDiv (val.type - 13) 2).toNat with
        | .error e => .error e
        | .ok (bs, _) =>
          if rec.encoding = 1 then .ok (.text (bs.takeWhile (· ≠ 0)))
          else .error .utf16Unsupported
      else .error (.unknownValueType val.type)

/-- C9: a record value whose serial type is the reserved 10 or 11 is
rejected — the decoder falls through every branch of the serial-type
switch and yields the "unknown value type" error (the error the spec's
taxonomy files under `Corruption`) and no value, regardless of the cell
contents. -/
theorem valueAt_reserved_type_rejected (enc : Nat) (cellR : Reader)
    (values : List RecordVal) (c : Nat) (h : c < values.length)
    (ht : (values.getD c ⟨0, 0⟩).type = 10 ∨ (values.getD c ⟨0, 0⟩).type = 11) :
    ValueAt ⟨enc, cellR, values⟩ (c : Int) =
      .error (.unknownValueType ((values.getD c ⟨0, 0⟩).type)) := by
  unfold ValueAt
  have hgt : ¬ ((c : Int) > ((values.length : Nat) : Int)) := by
    simp only [not_lt]
    exact_mod_cast Nat.le_of_lt h
  rw [if_neg hgt, if_pos (Int.natCast_nonneg c)]
  cases hv : values.get? ((c : Int)).toNat with
  | none =>
    rw [Int.toNat_natCast] at hv
    rw [List.get?_eq_none] at hv
    omega
  | some val =>
    rw [Int.toNat_natCast] at hv
    have hval : values.getD c ⟨0, 0⟩ = val := by
      have hg : values[c]? = some val := by
        rw [← List.get?_eq_getElem?]
        exact hv
      simp [List.getD, hg]
    rw [hval] at ht ⊢
    rcases ht with h10 | h11
    · simp only [h10]
      norm_num
    · simp only [h11]
      norm_num

/-- C9 witness: a concrete one-value record with serial type 10 over an
empty cell is rejected with the unknown-value-type error. -/
theorem valueAt_reserved_type_rejected_witness :
    ValueAt ⟨1, ⟨[], 0⟩, [⟨10, 2⟩]⟩ 0 = .error (.unknownValueType 10) := by
  have h := valueAt_reserved_type_rejected 1 ⟨[], 0⟩ [⟨10, 2⟩] 0 (by decide) (Or.inl rfl)
  simpa using h

/-- C5: evaluation of the record decoder at the failing inputs for the
claim.  A record with one serial-type-3 value whose three body bytes are
`ff ff ff` (the 24-bit two's-complement encoding of -1) decodes to
4294967295: the source patches the spare high byte but then zero-extends
through `int64(binary.BigEndian.Uint32(...))`.  A record with one
serial-type-5 value whose six body bytes are `ff ff ff ff ff ff` (the
48-bit encoding of -1) decodes to -71776119061217281 (bit pattern
`0xFF00FFFFFFFFFFFF`): the source patches only the first of the two spare
high bytes. -/
theorem valueAt_sign_extension_bug :
    (do
      let r ← NewRecord 1 ⟨[2, 3, 255, 255, 255], 0⟩
      ValueAt r 0) = .ok (.int 4294967295)
    ∧ (4294967295 : Int) ≠ -1
    ∧ (do
      let r ← NewRecord 1 ⟨[2, 5, 255, 255, 255, 255, 255, 255], 0⟩
      ValueAt r 0) = .ok (.int (-71776119061217281))
    ∧ (-71776119061217281 : Int) ≠ -1 := by
  exact ⟨by decide, by decide, by decide, by decide⟩

/-- C10: evaluation of the record decoder at the failing input for the
claim.  On a parsed one-value record, `value_at(num_values())` passes the
`c > num_values()` guard (which uses `>`, not `≥`) and then indexes the
values slice out of range — a runtime panic, not a returned error —
whereas `value_at(num_values() + 1)` is rejected gracefully. -/
theorem valueAt_index_equal_numValues_panics :
    (do
      let r ← NewRecord 1 ⟨[2, 1, 5], 0⟩
      ValueAt r 1) = .error .panicIndexOutOfRange
    ∧ (do
      let r ← NewRecord 1 ⟨[2, 1, 5], 0⟩
      ValueAt r 2) = .error (.columnOutOfRange 2)
    ∧ (do
      let r ← NewRecord 1 ⟨[2, 1, 5], 0⟩
      pure (NumValues r)) = .ok 1 := by
  exact ⟨by decide, by decide, by decide⟩

end Dotlite
